import Mathlib

/-!
# Verification of the `couic` transcription editor core

Shallow embedding of `src/app.rs` and `src/errors.rs`: the mode-driven input
state machine, the page load/save/navigation logic, and the line-reflow
transform.  Machine integers (`u32`) are modelled as `Nat` with explicit
overflow branches; fallible Rust code returns `Except`/an error-carrying
result type; the filesystem and the external text-widget collaborators are
explicit parameters (the spec declares them out of scope except for the
narrow interface the core requires).
-/

namespace Couic

/-! ## Modes (`enum Mode` in `src/app.rs`) -/

/-- The `Mode` enum from `src/app.rs`. -/
inductive Mode
  | openDir
  | openFile
  | insert
  | selection
  | search
  | history
  | command
  | quit
deriving DecidableEq

/-! ## Errors (`src/errors.rs`) -/

/-- The `Error` enum from `src/errors.rs`: io / integer-parse / regex
compilation failures, each carrying a message string. -/
inductive Error
  | io (s : String)
  | parseInt (s : String)
  | regex (s : String)
deriving DecidableEq

/-- `Display` of `Error` (its `#[error(...)]` format strings): each variant
renders with a fixed non-empty prefix. -/
def Error.render : Error → String
  | .io s => "io error " ++ s
  | .parseInt s => "not an int " ++ s
  | .regex s => "regex error " ++ s

/-! ## Character classes

`LONG_LINES` in `src/app.rs` is the regex `[^\n\S]{3,}`: three or more
consecutive characters that are whitespace (`\s`, Unicode `White_Space`)
but not `'\n'`. -/

/-- Rust `regex` crate `\s` (Unicode `White_Space`). -/
def rustIsSpace (c : Char) : Bool :=
  c = ' ' || c = '\t' || c = '\n' || c = '\x0b' || c = '\x0c' || c = '\r' ||
  c = '\u0085' || c = ' ' || c = ' ' ||
  (' ' ≤ c && c ≤ ' ') ||
  c = ' ' || c = ' ' || c = ' ' || c = ' ' || c = '　'

/-- The character class `[^\n\S]` of the `LONG_LINES` regex in `src/app.rs`:
not `'\n'` and not a non-whitespace character. -/
def longLinesClass (c : Char) : Bool :=
  !(c = '\n') && rustIsSpace c

/-- Vertical whitespace / line-break characters (Unicode line terminators). -/
def vertWS (c : Char) : Bool :=
  c = '\n' || c = '\x0b' || c = '\x0c' || c = '\r' ||
  c = '\u0085' || c = ' ' || c = ' '

/-- Modelled from the spec: "horizontal whitespace characters (not counting
line breaks)" — whitespace that is not a line-break character.  This is the
character class the spec's description of `LineReflow` uses; it is to be
compared with `longLinesClass`, the class the source regex actually uses. -/
def horizWS (c : Char) : Bool :=
  rustIsSpace c && !(vertWS c)

/-! ## Line splitting and joining

`BufRead::lines` (used by `load`) and `str::lines` (used by
`split_long_lines`) have the same observable behaviour on in-memory data:
split at `'\n'`, strip a `'\r'` that immediately precedes a `'\n'`, and a
final line terminator is optional (it does not produce a trailing empty
line). -/

/-- Split a character list at every `'\n'` (like `String::split('\n')`):
always returns one more piece than there are newlines. -/
def splitNL : List Char → List (List Char)
  | [] => [[]]
  | c :: cs =>
    if c = '\n' then [] :: splitNL cs
    else
      match splitNL cs with
      | [] => [[c]]
      | l :: ls => (c :: l) :: ls

/-- Strip one trailing `'\r'` (the `\r` of a `\r\n` line ending). -/
def stripCR (l : List Char) : List Char :=
  if l.getLast? = some '\r' then l.dropLast else l

/-- Rust `BufRead::lines` / `str::lines` on in-memory content: split at
`'\n'`, strip a trailing `'\r'` from each newline-terminated piece, and do
not produce a trailing empty line for a final line terminator. -/
def rustLines (t : List Char) : List (List Char) :=
  if t = [] then []
  else
    let P := splitNL t
    if P.getLast? = some ([] : List Char) then P.dropLast.map stripCR
    else P.dropLast.map stripCR ++ [P.getLastD []]

/-- `Vec<String>::join("\n")`: interpose a single `'\n'` between lines. -/
def joinNL : List (List Char) → List Char
  | [] => []
  | [l] => l
  | l :: ls => l ++ '\n' :: joinNL ls

/-- Remove one final `'\n'` if present (trailing-newline normalization). -/
def stripT (t : List Char) : List Char :=
  if t.getLast? = some '\n' then t.dropLast else t

/-! ## The reflow transform (`AppState::split_long_lines`)

`LONG_LINES.replace_all(&text, "\n")` replaces every maximal run of three
or more consecutive `longLinesClass` characters by a single `'\n'`.  The
scan below carries the (reversed) pending run of class characters. -/

/-- One left-to-right pass of `Regex::replace_all` for a class-run pattern
`[class]{3,}`: `pend` is the reversed run of class characters read so far. -/
def reflowAuxP (p : Char → Bool) : List Char → List Char → List Char
  | pend, [] => if 3 ≤ pend.length then ['\n'] else pend.reverse
  | pend, c :: cs =>
    if p c then reflowAuxP p (c :: pend) cs
    else
      (if 3 ≤ pend.length then ['\n'] else pend.reverse) ++
        c :: reflowAuxP p [] cs

/-- `LONG_LINES.replace_all(text, "\n")` from `src/app.rs`. -/
def reflowText (t : List Char) : List Char :=
  reflowAuxP longLinesClass [] t

/-- `AppState::split_long_lines` on the buffer's lines: join with `'\n'`,
replace long whitespace runs, re-split with `str::lines`. -/
def splitLongLines (L : List (List Char)) : List (List Char) :=
  rustLines (reflowText (joinNL L))

/-- Modelled from the spec: the `LineReflow` transform as §4.5 words it —
maximal runs of three or more consecutive *horizontal* whitespace
characters (not counting line breaks) replaced by a single line break. -/
def reflowSpecLines (L : List (List Char)) : List (List Char) :=
  rustLines (reflowAuxP horizWS [] (joinNL L))

/-! ## `u32` arithmetic and page-id parsing/formatting -/

/-- `u32::MAX`. -/
def u32Max : Nat := 4294967295

/-- Rust `u32` subtraction: `none` is the overflow branch (a panic in debug
builds, wraparound in release builds) — reached exactly when `b > a`. -/
def u32sub (a b : Nat) : Option Nat :=
  if b ≤ a then some (a - b) else none

/-- Rust `u32` addition, `none` for the overflow branch. -/
def u32add (a b : Nat) : Option Nat :=
  if a + b ≤ u32Max then some (a + b) else none

/-- The optional leading `'+'` accepted by `str::parse::<u32>`. -/
def stripPlus : List Char → List Char
  | '+' :: rest => rest
  | cs => cs

/-- `str::parse::<u32>` body: after the optional sign, a non-empty digit
string whose value fits in `u32`. -/
def parseU32Core (cs : List Char) : Except Error Nat :=
  let ds := stripPlus cs
  if ds = [] then .error (.parseInt "cannot parse integer from empty string")
  else if ds.all (fun c => '0' ≤ c && c ≤ '9') then
    let n := ds.foldl (fun a c => a * 10 + (c.toNat - 48)) 0
    if n ≤ u32Max then .ok n
    else .error (.parseInt "number too large to fit in target type")
  else .error (.parseInt "invalid digit found in string")

/-- `str::parse::<u32>` on a `String`. -/
def parseU32 (s : String) : Except Error Nat :=
  parseU32Core s.data

/-- Decimal digits of `n` (most significant first), fuel-indexed so that the
definition is structural; `fuel ≥ n` suffices for full expansion. -/
def decDigitsF : Nat → Nat → List Char
  | 0, _ => []
  | f + 1, n =>
    if n = 0 then []
    else decDigitsF f (n / 10) ++ [Nat.digitChar (n % 10)]

/-- Decimal representation of `n` (as `format!("{n}")`). -/
def decRepr (n : Nat) : List Char :=
  if n = 0 then ['0'] else decDigitsF n n

/-- `format!("{x:03}")`: decimal representation left-padded with `'0'` to
width 3. -/
def fmt3 (x : Nat) : String :=
  ⟨List.replicate (3 - (decRepr x).length) '0' ++ decRepr x⟩

/-! ## Input events

Only key-press events are modelled: every special arm of every handler in
`src/app.rs` requires `KeyEventKind::Press`, and the claims under
verification all concern key presses.  Modifiers are modelled as the two
flags the source inspects (`CONTROL`, `SHIFT`); a pattern such as
`modifiers: KeyModifiers::CONTROL` is an exact match on the modifier set. -/

/-- The key codes the handlers of `src/app.rs` distinguish (both in their
`crossterm::KeyCode` form and after `Into<tui_textarea::Input>`). -/
inductive KCode
  | esc
  | enter
  | char (c : Char)
  | left
  | right
  | up
  | down
  | pageUp
  | pageDown
  | home
  | lineEnd
  | other
deriving DecidableEq

/-- A key press with its modifier flags. -/
structure KeyIn where
  code : KCode
  ctrl : Bool := false
  shift : Bool := false
deriving DecidableEq

/-! ## Application state (`Data` in `src/app.rs`)

The `tui_textarea::TextArea` is modelled by the observable state the spec's
`DocumentBuffer` names: lines, cursor, selection anchor, undo and redo
stacks.  The editing operations whose internals the spec leaves to the
text-widget collaborator act on this structure through the `Collab`
interface below. -/

/-- The document buffer (`TextArea`): lines, cursor, optional selection
anchor, undo/redo stacks of buffer snapshots. -/
structure TextBox where
  lines : List (List Char)
  cursor : Nat × Nat
  sel : Option (Nat × Nat)
  undoStack : List (List (List Char))
  redoStack : List (List (List Char))
deriving DecidableEq

/-- `TextArea::new` pushes one empty line onto an empty vector: the widget
maintains the invariant that the buffer holds at least one line (couic's
own `textarea(vec![], ..)` at startup relies on it). -/
def ensureLine (L : List (List Char)) : List (List Char) :=
  if L = [] then [[]] else L

/-- `TextArea::new(lines)` as built by the `textarea` helper: lines with
the empty-vector normalization, fresh cursor, no selection, empty history.
(The helper also sets the search pattern, whose `unwrap` is modelled at
the call sites.) -/
def textarea (L : List (List Char)) : TextBox :=
  { lines := ensureLine L, cursor := (0, 0), sel := none,
    undoStack := [], redoStack := [] }

/-- The `Data` struct of `src/app.rs`: current mode, document buffer, the
three prompt fields (`cwd`, `curr`, `srch`), cached page count `tot`, and
the status message `msg`. -/
structure Data where
  mode : Mode
  text : TextBox
  cwd : String
  tot : Nat
  curr : String
  srch : String
  msg : String
deriving DecidableEq

/-- The filesystem the navigator reads and writes: file path to content
(`none` = cannot open), plus the regular-file count `read_dir` produces for
a directory (`none` = cannot read the directory). -/
structure FS where
  files : String → Option (List Char)
  dirCount : String → Option Nat

/-- Write (create or truncate) a file. -/
def FS.write (fs : FS) (name : String) (content : List Char) : FS :=
  { fs with files := fun n => if n = name then some content else fs.files n }

/-- `PathBuf::join` of the working directory and `format!("{x:03}.txt")`. -/
def fnameOf (cwd : String) (x : Nat) : String :=
  cwd ++ "/" ++ fmt3 x ++ ".txt"

/-! ## Collaborator interface

The spec (§1, §6) scopes the text-widget, prompt-field and search-engine
internals out of the core; the core only requires the operations below.
`searchFwd`/`searchBack` are modelled from the spec (§4.2): they return the
position of the nearest match strictly after/before the cursor, `none`
when there is none (no wrapping); `rxOk` tells whether a pattern
compiles. -/

/-- Cursor-movement units of the shared movement submodel. -/
inductive MoveKind
  | wordForward
  | wordBack
  | paragraphBack
  | paragraphForward
  | head
  | tail
  | back
  | forward
  | up
  | down
deriving DecidableEq

/-- The operations the core requires from its collaborators. -/
structure Collab where
  rxOk : String → Bool
  searchFwd : String → TextBox → Option (Nat × Nat)
  searchBack : String → TextBox → Option (Nat × Nat)
  moveCur : MoveKind → TextBox → TextBox
  editKey : KeyIn → TextBox → TextBox
  promptKey : KeyIn → String → String
  cutSel : TextBox → TextBox
  undoOp : TextBox → TextBox
  redoOp : TextBox → TextBox
  insertStr : String → TextBox → TextBox
  startSel : TextBox → TextBox

/-! ## Handler results

A handler leaves its mutations on `&mut self` in place even when it
returns early with `?`, so the error outcome carries the state as the
handler left it.  `panicked` marks the unchecked branches the source can
reach (`u32` overflow in `next`/`prev` in a debug build, and the
`set_search_pattern(..).unwrap()` of the `textarea` helper on an invalid
stored pattern). -/

/-- Outcome of one dispatched input event. -/
inductive StepRes
  | ok (d : Data) (fs : FS)
  | err (e : Error) (d : Data) (fs : FS)
  | panicked

/-- The mode after a step (`none` when the step panicked). -/
def stepMode : StepRes → Option Mode
  | .ok d _ => some d.mode
  | .err _ d _ => some d.mode
  | .panicked => none

/-- Whether a step returned the error outcome. -/
def stepIsErr : StepRes → Bool
  | .err _ _ _ => true
  | _ => false

/-! ## Page navigation (`load`, `save`, `next`, `prev`) -/

/-- `AppState::load(x)`: write `format!("{x:03}")` into the `curr` field
*first*, then open `<cwd>/<x:03>.txt`; `?` on the open propagates the I/O
error with `curr` already updated and the buffer untouched.  On success the
buffer is replaced wholesale by a fresh `textarea` (which `unwrap`s the
compilation of the stored search pattern). -/
def loadStep (co : Collab) (fs : FS) (d : Data) (x : Nat) : StepRes :=
  let d1 := { d with curr := fmt3 x }
  match fs.files (fnameOf d1.cwd x) with
  | none => .err (.io "No such file or directory (os error 2)") d1 fs
  | some content =>
    if co.rxOk d1.srch then
      .ok { d1 with text := textarea (rustLines content) } fs
    else .panicked

/-- `AppState::save()`: parse `curr`, `remove_file` the page file (`?`
propagates when it does not exist), then recreate it with the joined
buffer lines.  `save` takes `&self`: the data is never mutated. -/
def saveStep (fs : FS) (d : Data) : StepRes :=
  match parseU32 d.curr with
  | .error e => .err e d fs
  | .ok x =>
    let fname := fnameOf d.cwd x
    match fs.files fname with
    | none => .err (.io "No such file or directory (os error 2)") d fs
    | some _ => .ok d (fs.write fname (joinNL d.text.lines))

/-- `AppState::next()`: parse `curr`, `load(curr + 1)` (`u32` addition). -/
def nextStep (co : Collab) (fs : FS) (d : Data) : StepRes :=
  match parseU32 d.curr with
  | .error e => .err e d fs
  | .ok n =>
    match u32add n 1 with
    | none => .panicked
    | some m => loadStep co fs d m

/-- `AppState::prev()`: parse `curr`, `load(curr - 1)` — an unchecked `u32`
decrement whose underflow branch (`curr = 0`) is `panicked`. -/
def prevStep (co : Collab) (fs : FS) (d : Data) : StepRes :=
  match parseU32 d.curr with
  | .error e => .err e d fs
  | .ok n =>
    match u32sub n 1 with
    | none => .panicked
    | some m => loadStep co fs d m

/-! ## The input handlers -/

/-- `AppState::movement`: the shared movement submodel, with the source's
arm order; `none` means the event is handed back to the caller. -/
def movementKey (k : KeyIn) : Option MoveKind :=
  if (k.code = .right ∧ k.ctrl = true ∧ k.shift = false) ∨ k.code = .char 'w' then
    some .wordForward
  else if (k.code = .left ∧ k.ctrl = true ∧ k.shift = false) ∨ k.code = .char 'b' then
    some .wordBack
  else if (k.code = .char 'u' ∧ k.ctrl = true ∧ k.shift = false) ∨ k.code = .pageUp then
    some .paragraphBack
  else if (k.code = .char 'd' ∧ k.ctrl = true ∧ k.shift = false) ∨ k.code = .pageDown then
    some .paragraphForward
  else if k.code = .char '^' ∨ k.code = .home then some .head
  else if k.code = .char '$' ∨ k.code = .lineEnd then some .tail
  else if k.code = .left then some .back
  else if k.code = .right then some .forward
  else if k.code = .up then some .up
  else if k.code = .down then some .down
  else none

/-- `AppState::open_input` (OpenDir mode): Esc → Command; Enter → count the
directory's files into `tot`, `load(0)`, then → Command; anything else
edits the `cwd` prompt. -/
def openInput (co : Collab) (fs : FS) (d : Data) (k : KeyIn) : StepRes :=
  if k.code = .esc then .ok { d with mode := .command } fs
  else if k.code = .enter then
    match fs.dirCount d.cwd with
    | none => .err (.io "No such file or directory (os error 2)") d fs
    | some cnt =>
      match loadStep co fs { d with tot := cnt } 0 with
      | .ok d2 fs2 => .ok { d2 with mode := .command } fs2
      | .err e d2 fs2 => .err e d2 fs2
      | .panicked => .panicked
  else .ok { d with cwd := co.promptKey k d.cwd } fs

/-- `AppState::curr_input` (OpenFile mode): Esc → Command; Enter → parse the
entered id, `load(id)`, then → Command; anything else edits the `curr`
prompt. -/
def currInput (co : Collab) (fs : FS) (d : Data) (k : KeyIn) : StepRes :=
  if k.code = .esc then .ok { d with mode := .command } fs
  else if k.code = .enter then
    match parseU32 d.curr with
    | .error e => .err e d fs
    | .ok n =>
      match loadStep co fs d n with
      | .ok d2 fs2 => .ok { d2 with mode := .command } fs2
      | .err e d2 fs2 => .err e d2 fs2
      | .panicked => .panicked
  else .ok { d with curr := co.promptKey k d.curr } fs

/-- `AppState::input_input` (Input mode): Esc → Command; any other key is
forwarded verbatim to the text area. -/
def insertInput (co : Collab) (fs : FS) (d : Data) (k : KeyIn) : StepRes :=
  if k.code = .esc then .ok { d with mode := .command } fs
  else .ok { d with text := co.editKey k d.text } fs

/-- `AppState::select_input` (Selection mode): movement keys move the
cursor; Esc → Command; `x` cuts the selection and → Command. -/
def selectInput (co : Collab) (fs : FS) (d : Data) (k : KeyIn) : StepRes :=
  match movementKey k with
  | some mv => .ok { d with text := co.moveCur mv d.text } fs
  | none =>
    if k.code = .esc then .ok { d with mode := .command } fs
    else if k.code = .char 'x' then
      .ok { d with text := co.cutSel d.text, mode := .command } fs
    else .ok d fs

/-- The Enter arms of `AppState::search_input`: compile the entered pattern
(`?` propagates a regex error), then search backward/forward; the boolean
"found" result of the search is discarded, and on `none` the cursor is
left where it was. -/
def searchGo (co : Collab) (fs : FS) (d : Data) (back : Bool) : StepRes :=
  if co.rxOk d.srch then
    match (if back then co.searchBack d.srch d.text else co.searchFwd d.srch d.text) with
    | some pos => .ok { d with text := { d.text with cursor := pos } } fs
    | none => .ok d fs
  else .err (.regex "regex parse error") d fs

/-- `AppState::search_input` (Search mode): Esc → Command; Shift+Enter →
backward search; Enter → forward search; anything else edits the `srch`
prompt. -/
def searchInput (co : Collab) (fs : FS) (d : Data) (k : KeyIn) : StepRes :=
  if k.code = .esc then .ok { d with mode := .command } fs
  else if k.code = .enter ∧ k.shift = true ∧ k.ctrl = false then searchGo co fs d true
  else if k.code = .enter then searchGo co fs d false
  else .ok { d with srch := co.promptKey k d.srch } fs

/-- `AppState::history_input` (History mode): Esc → Command; `u` undo; `r`
redo. -/
def historyInput (co : Collab) (fs : FS) (d : Data) (k : KeyIn) : StepRes :=
  if k.code = .esc then .ok { d with mode := .command } fs
  else if k.code = .char 'u' then .ok { d with text := co.undoOp d.text } fs
  else if k.code = .char 'r' then .ok { d with text := co.redoOp d.text } fs
  else .ok d fs

/-- The non-movement arms of `AppState::command_input`, in source order.
There is no Esc arm: an Esc that reaches this match falls through to the
final do-nothing arm. -/
def commandKeys (co : Collab) (fs : FS) (d : Data) (k : KeyIn) : StepRes :=
  if k.code = .char 'q' then .ok { d with mode := .quit } fs
  else if k.code = .char 'o' then .ok { d with mode := .openDir } fs
  else if k.code = .char 'f' then .ok { d with mode := .openFile } fs
  else if k.code = .char 'i' then .ok { d with mode := .insert } fs
  else if k.code = .char 'h' then .ok { d with mode := .history } fs
  else if k.code = .char '/' then .ok { d with mode := .search } fs
  else if k.code = .char '*' then .ok { d with msg := "Filed Copied to Clipboard" } fs
  else if k.code = .char 'n' then nextStep co fs d
  else if k.code = .char 'p' then prevStep co fs d
  else if k.code = .char 's' ∧ k.ctrl = true then saveStep fs d
  else if k.code = .char '#' then .ok { d with text := co.insertStr "###" d.text } fs
  else if k.code = .char 'l' then
    if co.rxOk d.srch then
      .ok { d with text := textarea (splitLongLines d.text.lines) } fs
    else .panicked
  else if k.code = .char ' ' then
    .ok { d with mode := .selection, text := co.startSel d.text } fs
  else .ok d fs

/-- `AppState::command_input` (Command mode): movement keys first, then the
command arms. -/
def commandInput (co : Collab) (fs : FS) (d : Data) (k : KeyIn) : StepRes :=
  match movementKey k with
  | some mv => .ok { d with text := co.moveCur mv d.text } fs
  | none => commandKeys co fs d k

/-- `AppState::input`: dispatch one key press by the current mode
(`quit_input` ignores its event). -/
def dispatch (co : Collab) (fs : FS) (d : Data) (k : KeyIn) : StepRes :=
  match d.mode with
  | .openDir => openInput co fs d k
  | .openFile => currInput co fs d k
  | .insert => insertInput co fs d k
  | .selection => selectInput co fs d k
  | .search => searchInput co fs d k
  | .history => historyInput co fs d k
  | .command => commandInput co fs d k
  | .quit => .ok d fs

/-! ## The run loop (`App::run`)

Each iteration renders, dispatches one event, then: on a handler error the
status message becomes the error's rendering, otherwise it is reset to the
empty string; the loop breaks exactly when the mode is `Quit`. -/

/-- The post-dispatch tail of one `App::run` iteration: the updated state,
the filesystem, and whether the loop breaks.  `none` when the dispatch
panicked. -/
def runStep : StepRes → Option (Data × FS × Bool)
  | .ok d fs => some ({ d with msg := "" }, fs, decide (d.mode = .quit))
  | .err e d fs => some ({ d with msg := e.render }, fs, decide (d.mode = .quit))
  | .panicked => none

/-- The status message at the start of the next iteration (what the next
render will show). -/
def stepMsgAfter (r : StepRes) : Option String :=
  (runStep r).map (fun p => p.1.msg)

/-- Handy key-press constructors. -/
def escKey : KeyIn := ⟨.esc, false, false⟩

/-- Plain Enter key press. -/
def enterKey : KeyIn := ⟨.enter, false, false⟩

/-- A plain character key press. -/
def charKey (c : Char) : KeyIn := ⟨.char c, false, false⟩

/-! ## Concrete instances used by witnesses and counterexamples -/

/-- A trivial collaborator: every pattern compiles, searches find nothing,
editing operations are the identity. -/
def coW : Collab :=
  ⟨fun _ => true, fun _ _ => none, fun _ _ => none, fun _ t => t,
   fun _ t => t, fun _ s => s, id, id, id, fun _ t => t, id⟩

/-- An empty filesystem. -/
def fsEmpty : FS := ⟨fun _ => none, fun _ => none⟩

/-- A state in Command mode at page `000`. -/
def dCmd : Data := ⟨.command, textarea [], "", 1, "000", "x", ""⟩

/-! ## Basic lemmas -/

/-- Every `Error` renders with a non-empty prefix. -/
theorem Error.render_ne_empty (e : Error) : e.render ≠ "" := by
  cases e <;> intro h
  all_goals
    have h2 := congrArg String.length h
  all_goals
    simp [Error.render, String.length_append] at h2
  all_goals
    exact absurd h2.1 (by decide)

/-- A failed `loadStep` leaves everything but `curr` unchanged: it yields
exactly the I/O error with `curr` set to the formatted id. -/
theorem loadStep_err_iff (co : Collab) (fs : FS) (d : Data) (x : Nat)
    (e : Error) (d' : Data) (fs' : FS)
    (h : loadStep co fs d x = .err e d' fs') :
    e = .io "No such file or directory (os error 2)" ∧
    d' = { d with curr := fmt3 x } ∧ fs' = fs := by
  unfold loadStep at h
  dsimp only at h
  split at h
  · cases h; exact ⟨rfl, rfl, rfl⟩
  · split at h <;> cases h

/-- A failed `saveStep` changes nothing: the data and filesystem come back
as they were. -/
theorem saveStep_err_iff (fs : FS) (d : Data) (e : Error) (d' : Data) (fs' : FS)
    (h : saveStep fs d = .err e d' fs') : d' = d ∧ fs' = fs := by
  unfold saveStep at h
  dsimp only at h
  split at h
  · cases h; exact ⟨rfl, rfl⟩
  · split at h
    · cases h; exact ⟨rfl, rfl⟩
    · cases h

/-- A failed `nextStep` leaves the mode unchanged. -/
theorem nextStep_err_mode (co : Collab) (fs : FS) (d : Data)
    (e : Error) (d' : Data) (fs' : FS)
    (h : nextStep co fs d = .err e d' fs') : d'.mode = d.mode := by
  unfold nextStep at h
  split at h
  · cases h; rfl
  · split at h
    · cases h
    · obtain ⟨-, hd, -⟩ := loadStep_err_iff _ _ _ _ _ _ _ h
      rw [hd]

/-- A failed `prevStep` leaves the mode unchanged. -/
theorem prevStep_err_mode (co : Collab) (fs : FS) (d : Data)
    (e : Error) (d' : Data) (fs' : FS)
    (h : prevStep co fs d = .err e d' fs') : d'.mode = d.mode := by
  unfold prevStep at h
  split at h
  · cases h; rfl
  · split at h
    · cases h
    · obtain ⟨-, hd, -⟩ := loadStep_err_iff _ _ _ _ _ _ _ h
      rw [hd]

/-- A failed `openInput` leaves the mode unchanged (the transition to
Command happens only after a successful load). -/
theorem openInput_err_mode (co : Collab) (fs : FS) (d : Data) (k : KeyIn)
    (e : Error) (d' : Data) (fs' : FS)
    (h : openInput co fs d k = .err e d' fs') : d'.mode = d.mode := by
  unfold openInput at h
  split at h
  · cases h
  · split at h
    · split at h
      · cases h; rfl
      · split at h
        · cases h
        · cases h
          obtain ⟨-, hd, -⟩ := loadStep_err_iff _ _ _ _ _ _ _ ‹_›
          rw [hd]
        · cases h
    · cases h

/-- A failed `currInput` leaves the mode unchanged. -/
theorem currInput_err_mode (co : Collab) (fs : FS) (d : Data) (k : KeyIn)
    (e : Error) (d' : Data) (fs' : FS)
    (h : currInput co fs d k = .err e d' fs') : d'.mode = d.mode := by
  unfold currInput at h
  split at h
  · cases h
  · split at h
    · split at h
      · cases h; rfl
      · split at h
        · cases h
        · cases h
          obtain ⟨-, hd, -⟩ := loadStep_err_iff _ _ _ _ _ _ _ ‹_›
          rw [hd]
        · cases h
    · cases h

/-- A failed `searchInput` leaves everything unchanged. -/
theorem searchInput_err_mode (co : Collab) (fs : FS) (d : Data) (k : KeyIn)
    (e : Error) (d' : Data) (fs' : FS)
    (h : searchInput co fs d k = .err e d' fs') : d'.mode = d.mode := by
  unfold searchInput searchGo at h
  split at h
  · cases h
  · split at h
    · split at h
      · split at h
        · cases h
        · cases h
      · cases h; rfl
    · split at h
      · split at h
        · split at h
          · cases h
          · cases h
        · cases h; rfl
      · cases h

/-- A failed `commandKeys` leaves the mode unchanged. -/
theorem commandKeys_err_mode (co : Collab) (fs : FS) (d : Data) (k : KeyIn)
    (e : Error) (d' : Data) (fs' : FS)
    (h : commandKeys co fs d k = .err e d' fs') : d'.mode = d.mode := by
  unfold commandKeys at h
  by_cases h1 : k.code = KCode.char 'q'
  · rw [if_pos h1] at h; cases h
  rw [if_neg h1] at h
  by_cases h2 : k.code = KCode.char 'o'
  · rw [if_pos h2] at h; cases h
  rw [if_neg h2] at h
  by_cases h3 : k.code = KCode.char 'f'
  · rw [if_pos h3] at h; cases h
  rw [if_neg h3] at h
  by_cases h4 : k.code = KCode.char 'i'
  · rw [if_pos h4] at h; cases h
  rw [if_neg h4] at h
  by_cases h5 : k.code = KCode.char 'h'
  · rw [if_pos h5] at h; cases h
  rw [if_neg h5] at h
  by_cases h6 : k.code = KCode.char '/'
  · rw [if_pos h6] at h; cases h
  rw [if_neg h6] at h
  by_cases h7 : k.code = KCode.char '*'
  · rw [if_pos h7] at h; cases h
  rw [if_neg h7] at h
  by_cases h8 : k.code = KCode.char 'n'
  · rw [if_pos h8] at h
    exact nextStep_err_mode _ _ _ _ _ _ h
  rw [if_neg h8] at h
  by_cases h9 : k.code = KCode.char 'p'
  · rw [if_pos h9] at h
    exact prevStep_err_mode _ _ _ _ _ _ h
  rw [if_neg h9] at h
  by_cases h10 : k.code = KCode.char 's' ∧ k.ctrl = true
  · rw [if_pos h10] at h
    obtain ⟨hd, -⟩ := saveStep_err_iff _ _ _ _ _ h
    rw [hd]
  rw [if_neg h10] at h
  by_cases h11 : k.code = KCode.char '#'
  · rw [if_pos h11] at h; cases h
  rw [if_neg h11] at h
  by_cases h12 : k.code = KCode.char 'l'
  · rw [if_pos h12] at h
    split at h
    · cases h
    · cases h
  rw [if_neg h12] at h
  by_cases h13 : k.code = KCode.char ' '
  · rw [if_pos h13] at h; cases h
  rw [if_neg h13] at h
  cases h

/-- If any handler errors, the mode is the one the handler left (never
Quit): the run loop does not break after a recoverable error. -/
theorem dispatch_err_mode (co : Collab) (fs : FS) (d : Data) (k : KeyIn)
    (e : Error) (d' : Data) (fs' : FS)
    (h : dispatch co fs d k = .err e d' fs') :
    d'.mode = d.mode ∧ d.mode ≠ .quit := by
  obtain ⟨m, tb, cw, tt, cu, sr, ms⟩ := d
  cases m
  all_goals simp only [dispatch] at h
  case openDir =>
    exact ⟨openInput_err_mode _ _ _ _ _ _ _ h, (by decide : Mode.openDir ≠ Mode.quit)⟩
  case openFile =>
    exact ⟨currInput_err_mode _ _ _ _ _ _ _ h, (by decide : Mode.openFile ≠ Mode.quit)⟩
  case insert =>
    unfold insertInput at h
    split at h
    · cases h
    · cases h
  case selection =>
    unfold selectInput at h
    split at h
    · cases h
    · split at h
      · cases h
      · split at h
        · cases h
        · cases h
  case search =>
    exact ⟨searchInput_err_mode _ _ _ _ _ _ _ h, (by decide : Mode.search ≠ Mode.quit)⟩
  case history =>
    unfold historyInput at h
    split at h
    · cases h
    · split at h
      · cases h
      · split at h
        · cases h
        · cases h
  case command =>
    unfold commandInput at h
    split at h
    · cases h
    · exact ⟨commandKeys_err_mode _ _ _ _ _ _ _ h, (by decide : Mode.command ≠ Mode.quit)⟩
  case quit => cases h

/-! ## C1 — Esc transitions -/

/-- **C1 counterexample**: the claim says that in Command mode an Esc key
press transitions to Quit.  In the source, the `command_input` match has no
Esc arm, so Esc falls through to the do-nothing arm: dispatching Esc in
Command mode leaves the mode at Command, which is not Quit. -/
theorem c1_counterexample :
    stepMode (dispatch coW fsEmpty dCmd escKey) = some Mode.command ∧
    Mode.command ≠ Mode.quit :=
  ⟨rfl, by decide⟩

/-- **C1 amended**: from every non-Quit mode other than Command, an Esc key
press transitions the mode to Command; in Command mode, `q` transitions to
Quit while Esc leaves the mode unchanged at Command. -/
theorem c1_esc_and_quit (co : Collab) (fs : FS) (d : Data) :
    (d.mode ≠ .quit → d.mode ≠ .command →
       stepMode (dispatch co fs d escKey) = some Mode.command) ∧
    (d.mode = .command →
       stepMode (dispatch co fs d escKey) = some Mode.command ∧
       stepMode (dispatch co fs d (charKey 'q')) = some Mode.quit) := by
  obtain ⟨m, tb, cw, tt, cu, sr, ms⟩ := d
  cases m
  case openDir =>
    exact ⟨fun _ _ => rfl, fun hc => absurd hc (by decide : ¬ Mode.openDir = Mode.command)⟩
  case openFile =>
    exact ⟨fun _ _ => rfl, fun hc => absurd hc (by decide : ¬ Mode.openFile = Mode.command)⟩
  case insert =>
    exact ⟨fun _ _ => rfl, fun hc => absurd hc (by decide : ¬ Mode.insert = Mode.command)⟩
  case selection =>
    exact ⟨fun _ _ => rfl, fun hc => absurd hc (by decide : ¬ Mode.selection = Mode.command)⟩
  case search =>
    exact ⟨fun _ _ => rfl, fun hc => absurd hc (by decide : ¬ Mode.search = Mode.command)⟩
  case history =>
    exact ⟨fun _ _ => rfl, fun hc => absurd hc (by decide : ¬ Mode.history = Mode.command)⟩
  case command =>
    exact ⟨fun _ hc => absurd rfl hc, fun _ => ⟨rfl, rfl⟩⟩
  case quit =>
    exact ⟨fun hq _ => absurd rfl hq, fun hc => absurd hc (by decide : ¬ Mode.quit = Mode.command)⟩

/-- A state in Search mode, used as a witness input. -/
def dSearch : Data := { dCmd with mode := .search }

/-- **C1 witness**: Esc in Search mode goes to Command; `q` in Command mode
goes to Quit. -/
theorem c1_esc_and_quit_witness :
    stepMode (dispatch coW fsEmpty dSearch escKey) = some Mode.command ∧
    stepMode (dispatch coW fsEmpty dCmd (charKey 'q')) = some Mode.quit :=
  ⟨(c1_esc_and_quit coW fsEmpty dSearch).1 (by decide) (by decide),
   ((c1_esc_and_quit coW fsEmpty dCmd).2 rfl).2⟩

/-! ## C2 — recoverable errors -/

/-- **C2**: when a dispatched handler returns an error (all errors are of
the three recoverable kinds: io / integer-parse / pattern-compile), the run
loop converts it into a non-empty status message, keeps the filesystem and
the state exactly as the handler left them (mode included), and does not
break out of the loop. -/
theorem c2_errors_recovered (co : Collab) (fs : FS) (d : Data) (k : KeyIn)
    (e : Error) (d' : Data) (fs' : FS)
    (h : dispatch co fs d k = .err e d' fs') :
    runStep (dispatch co fs d k) = some ({ d' with msg := e.render }, fs', false) ∧
    e.render ≠ "" := by
  obtain ⟨hmode, hq⟩ := dispatch_err_mode co fs d k e d' fs' h
  rw [h]
  refine ⟨?_, Error.render_ne_empty e⟩
  unfold runStep
  dsimp only
  have hfalse : decide (d'.mode = Mode.quit) = false := by
    rw [hmode]; exact decide_eq_false hq
  rw [hfalse]

/-- A state in OpenFile mode whose `curr` token is not numeric. -/
def dBadCurr : Data := ⟨.openFile, textarea [], "", 1, "abc", "x", ""⟩

/-- **C2 witness**: Enter in OpenFile mode with the non-numeric id token
`"abc"` produces a parse error; the loop stores its non-empty rendering and
continues in OpenFile mode. -/
theorem c2_errors_recovered_witness :
    dispatch coW fsEmpty dBadCurr enterKey =
      .err (.parseInt "invalid digit found in string") dBadCurr fsEmpty ∧
    runStep (dispatch coW fsEmpty dBadCurr enterKey) =
      some ({ dBadCurr with msg := "not an int invalid digit found in string" },
            fsEmpty, false) ∧
    "not an int invalid digit found in string" ≠ "" := by
  have h : dispatch coW fsEmpty dBadCurr enterKey =
      .err (.parseInt "invalid digit found in string") dBadCurr fsEmpty := rfl
  obtain ⟨h1, h2⟩ := c2_errors_recovered coW fsEmpty dBadCurr enterKey _ _ _ h
  exact ⟨h, h1, h2⟩

/-! ## C4 — failed load still updates the PageId -/

/-- **C4**: when `load(x)` fails because `<x:03>.txt` cannot be opened, the
`curr` PageId field has nevertheless already been set to the zero-padded
token of the requested id, while the document buffer (lines, cursor,
selection, undo history — the whole `text` value) and the filesystem are
unchanged. -/
theorem c4_load_failure (co : Collab) (fs : FS) (d : Data) (x : Nat)
    (h : fs.files (fnameOf d.cwd x) = none) :
    loadStep co fs d x =
      .err (.io "No such file or directory (os error 2)")
        { d with curr := fmt3 x } fs ∧
    ({ d with curr := fmt3 x }).text = d.text ∧
    ({ d with curr := fmt3 x }).curr = fmt3 x := by
  refine ⟨?_, rfl, rfl⟩
  unfold loadStep
  dsimp only
  rw [h]

/-- **C4 witness**: loading page 1 from an empty filesystem fails with the
I/O error and leaves `curr = "001"` with the buffer untouched. -/
theorem c4_load_failure_witness :
    fsEmpty.files (fnameOf dCmd.cwd 1) = none ∧
    loadStep coW fsEmpty dCmd 1 =
      .err (.io "No such file or directory (os error 2)")
        { dCmd with curr := fmt3 1 } fsEmpty :=
  ⟨rfl, (c4_load_failure coW fsEmpty dCmd 1 rfl).1⟩

/-! ## C9 — `prev()` at page 0 -/

/-- **C9**: when `prev()` runs while the current PageId token parses to 0,
the id computation is the unchecked `u32` decrement `0 - 1`: it reaches the
underflow/panic branch (`panicked`), so it neither clamps at zero, nor
no-ops, nor returns an error value.  The same outcome results from the `p`
dispatch in Command mode. -/
theorem c9_prev_underflow (co : Collab) (fs : FS) (d : Data)
    (h : parseU32 d.curr = .ok 0) :
    prevStep co fs d = .panicked ∧
    (d.mode = .command → dispatch co fs d (charKey 'p') = .panicked) := by
  have hp : prevStep co fs d = .panicked := by
    unfold prevStep
    rw [h]
    rfl
  refine ⟨hp, fun hm => ?_⟩
  have h1 : dispatch co fs d (charKey 'p') = commandInput co fs d (charKey 'p') := by
    unfold dispatch; rw [hm]
  have h2 : commandInput co fs d (charKey 'p') = prevStep co fs d := rfl
  rw [h1, h2, hp]

/-- **C9 witness**: at `curr = "000"` (which parses to 0) `prev` panics,
both directly and through the `p` key in Command mode. -/
theorem c9_prev_underflow_witness :
    parseU32 dCmd.curr = .ok 0 ∧ prevStep coW fsEmpty dCmd = .panicked ∧
    dispatch coW fsEmpty dCmd (charKey 'p') = .panicked := by
  have h := c9_prev_underflow coW fsEmpty dCmd rfl
  exact ⟨rfl, h.1, h.2 rfl⟩

/-! ## C10 — the run loop resets the status message on success -/

/-- **C10**: after every dispatch in which the handler returns success, the
run loop resets the status message to the empty string (the state the next
render will show). -/
theorem c10_ok_resets_msg (co : Collab) (fs : FS) (d : Data) (k : KeyIn)
    (d' : Data) (fs' : FS) (h : dispatch co fs d k = .ok d' fs') :
    runStep (dispatch co fs d k) =
      some ({ d' with msg := "" }, fs', decide (d'.mode = .quit)) := by
  rw [h]; rfl

/-- **C10 witness**: the clipboard-copy confirmation message set by a
successful `*` handler in Command mode is overwritten with the empty string
in the same iteration, before the next render. -/
theorem c10_ok_resets_msg_witness :
    dispatch coW fsEmpty dCmd (charKey '*') =
      .ok { dCmd with msg := "Filed Copied to Clipboard" } fsEmpty ∧
    runStep (dispatch coW fsEmpty dCmd (charKey '*')) =
      some ({ dCmd with msg := "" }, fsEmpty, false) := by
  have h : dispatch coW fsEmpty dCmd (charKey '*') =
      .ok { dCmd with msg := "Filed Copied to Clipboard" } fsEmpty := rfl
  exact ⟨h, c10_ok_resets_msg coW fsEmpty dCmd (charKey '*')
    { dCmd with msg := "Filed Copied to Clipboard" } fsEmpty h⟩

/-! ## C3 — forward search without a match -/

/-- **C3 counterexample**: searching forward in Search mode when the search
collaborator finds no match leaves the state untouched, and — contrary to
the claim that "a no-match status is reported" — no status is reported: the
run loop clears the message to the empty string (the search's boolean
result is discarded by `search_input` and `search_forward` never errors). -/
theorem c3_counterexample :
    dispatch coW fsEmpty dSearch enterKey = .ok dSearch fsEmpty ∧
    ¬ stepMsgAfter (dispatch coW fsEmpty dSearch enterKey) ≠ some "" :=
  ⟨rfl, fun hne => hne rfl⟩

/-- **C3 amended**: when the search collaborator (modelled from the spec:
next match strictly after the cursor, no wrapping) finds no match, the
Enter dispatch in Search mode leaves the whole state — in particular the
cursor — unchanged, and no "no match" status is reported: the status
message after the iteration is the empty string. -/
theorem c3_no_match_no_status (co : Collab) (fs : FS) (d : Data)
    (hm : d.mode = .search) (hrx : co.rxOk d.srch = true)
    (hnone : co.searchFwd d.srch d.text = none) :
    dispatch co fs d enterKey = .ok d fs ∧
    stepMsgAfter (dispatch co fs d enterKey) = some "" := by
  have h1 : dispatch co fs d enterKey = searchInput co fs d enterKey := by
    unfold dispatch; rw [hm]
  have h2 : searchInput co fs d enterKey = searchGo co fs d false := rfl
  have h3 : searchGo co fs d false = .ok d fs := by
    simp [searchGo, hrx, hnone]
  rw [h1, h2, h3]
  exact ⟨rfl, rfl⟩

/-- **C3 witness**: concrete no-match search (empty buffer, pattern that
matches nothing) leaves the state unchanged and reports the empty status. -/
theorem c3_no_match_no_status_witness :
    dispatch coW fsEmpty dSearch enterKey = .ok dSearch fsEmpty ∧
    stepMsgAfter (dispatch coW fsEmpty dSearch enterKey) = some "" :=
  c3_no_match_no_status coW fsEmpty dSearch rfl rfl rfl

/-! ## C5 — save with no pre-existing file -/

/-- **C5 counterexample**: with no file at the current PageId, `save()` does
not succeed and does not create the file: the `remove_file` call fails
first and its error propagates through `?`, leaving the filesystem exactly
as it was. -/
theorem c5_counterexample :
    saveStep fsEmpty dCmd =
      .err (.io "No such file or directory (os error 2)") dCmd fsEmpty ∧
    fsEmpty.files (fnameOf dCmd.cwd 0) = none :=
  ⟨rfl, rfl⟩

/-- **C5 amended**: when a file exists at the current PageId, `save()`
deletes it, recreates it and writes the document's joined lines; when no
file exists there, `save()` fails with the I/O error of the `remove_file`
step and creates nothing. -/
theorem c5_save_behaviour (fs : FS) (d : Data) (x : Nat)
    (hx : parseU32 d.curr = .ok x) :
    (fs.files (fnameOf d.cwd x) = none →
       saveStep fs d = .err (.io "No such file or directory (os error 2)") d fs) ∧
    (∀ c, fs.files (fnameOf d.cwd x) = some c →
       saveStep fs d =
         .ok d (fs.write (fnameOf d.cwd x) (joinNL d.text.lines))) := by
  constructor
  · intro hn
    unfold saveStep
    rw [hx]
    dsimp only
    rw [hn]
  · intro c hc
    unfold saveStep
    rw [hx]
    dsimp only
    rw [hc]

/-- A filesystem holding one page file `000.txt`. -/
def fsOne : FS :=
  ⟨fun n => if n = fnameOf "" 0 then some ['h', 'i'] else none, fun _ => some 1⟩

/-- **C5 witness**: at `curr = "000"`, saving over the empty filesystem
errors; saving over a filesystem that has `000.txt` rewrites it with the
buffer's joined lines. -/
theorem c5_save_behaviour_witness :
    parseU32 dCmd.curr = .ok 0 ∧
    saveStep fsEmpty dCmd =
      .err (.io "No such file or directory (os error 2)") dCmd fsEmpty ∧
    saveStep fsOne dCmd =
      .ok dCmd (fsOne.write (fnameOf "" 0) (joinNL dCmd.text.lines)) := by
  refine ⟨rfl, (c5_save_behaviour fsEmpty dCmd 0 rfl).1 rfl, ?_⟩
  exact (c5_save_behaviour fsOne dCmd 0 rfl).2 ['h', 'i'] rfl

/-! ## Decimal formatting/parsing roundtrip

`load(x)` stores `format!("{x:03}")` in `curr` and `save()` parses it back:
the lemmas below show the parse recovers `x` whenever `x` fits in `u32`. -/

/-- Char value of a decimal digit. -/
theorem digitChar_val {d : Nat} (h : d < 10) :
    (Nat.digitChar d).toNat - 48 = d := by
  interval_cases d <;> rfl

/-- `Nat.digitChar` of a value below 10 is an ASCII digit. -/
theorem digitChar_isDigit {d : Nat} (h : d < 10) :
    ('0' ≤ Nat.digitChar d && Nat.digitChar d ≤ '9') = true := by
  interval_cases d <;> rfl

/-- Every character of `decDigitsF` is an ASCII digit. -/
theorem decDigitsF_digits :
    ∀ (f n : Nat), ∀ c ∈ decDigitsF f n, ('0' ≤ c && c ≤ '9') = true := by
  intro f
  induction f with
  | zero => intro n c hc; cases hc
  | succ f ih =>
    intro n c hc
    unfold decDigitsF at hc
    split at hc
    · cases hc
    · rcases List.mem_append.1 hc with h | h
      · exact ih _ c h
      · rcases List.mem_singleton.1 h with rfl
        exact digitChar_isDigit (Nat.mod_lt _ (by norm_num))

/-- Every character of `decRepr` is an ASCII digit. -/
theorem decRepr_digits (n : Nat) : ∀ c ∈ decRepr n, ('0' ≤ c && c ≤ '9') = true := by
  intro c hc
  unfold decRepr at hc
  split at hc
  · rcases List.mem_singleton.1 hc with rfl; rfl
  · exact decDigitsF_digits n n c hc

/-- `decRepr` is never empty. -/
theorem decRepr_ne_nil (n : Nat) : decRepr n ≠ [] := by
  unfold decRepr
  split
  · simp
  · rename_i h0
    cases n with
    | zero => exact absurd rfl h0
    | succ m =>
      show decDigitsF (m + 1) (m + 1) ≠ []
      unfold decDigitsF
      rw [if_neg h0]
      simp

/-- Folding the parse step over the fuel-indexed digits of `n` recovers
`n` on top of the shifted accumulator. -/
theorem foldl_decDigitsF (f : Nat) :
    ∀ (n acc : Nat), n ≤ f →
      (decDigitsF f n).foldl (fun a c => a * 10 + (c.toNat - 48)) acc =
        acc * 10 ^ (decDigitsF f n).length + n := by
  induction f with
  | zero =>
    intro n acc hfn
    rcases Nat.le_zero.1 hfn with rfl
    simp [decDigitsF]
  | succ f ih =>
    intro n acc hfn
    unfold decDigitsF
    by_cases h0 : n = 0
    · rcases h0 with rfl; simp
    · rw [if_neg h0]
      have hdiv : n / 10 ≤ f := by
        have hlt : n / 10 < n := Nat.div_lt_self (Nat.pos_of_ne_zero h0) (by norm_num)
        omega
      rw [List.foldl_append, ih (n / 10) acc hdiv]
      have hlen : (decDigitsF f (n / 10) ++ [Nat.digitChar (n % 10)]).length =
          (decDigitsF f (n / 10)).length + 1 := by
        simp
      rw [hlen]
      simp only [List.foldl_cons, List.foldl_nil]
      rw [digitChar_val (Nat.mod_lt _ (by norm_num))]
      have hpow : acc * 10 ^ ((decDigitsF f (n / 10)).length + 1) =
          acc * 10 ^ (decDigitsF f (n / 10)).length * 10 := by ring
      rw [hpow]
      generalize acc * 10 ^ (decDigitsF f (n / 10)).length = k
      omega

/-- Folding the parse step over `fmt3 x`'s characters recovers `x`. -/
theorem foldl_fmt3 (x : Nat) :
    (List.replicate (3 - (decRepr x).length) '0' ++ decRepr x).foldl
      (fun a c => a * 10 + (c.toNat - 48)) 0 = x := by
  rw [List.foldl_append]
  have hz : ∀ k, (List.replicate k '0').foldl (fun a c => a * 10 + (c.toNat - 48)) 0 = 0 := by
    intro k
    induction k with
    | zero => rfl
    | succ k ih => simpa [List.replicate_succ] using ih
  rw [hz]
  unfold decRepr
  by_cases h0 : x = 0
  · rcases h0 with rfl; rfl
  · rw [if_neg h0, foldl_decDigitsF x x 0 le_rfl]
    simp

/-- `parseU32Core` on a non-empty all-digit list returns its value. -/
theorem parseU32Core_digits (cs : List Char) (hne : cs ≠ [])
    (hd : ∀ c ∈ cs, ('0' ≤ c && c ≤ '9') = true)
    (hle : cs.foldl (fun a c => a * 10 + (c.toNat - 48)) 0 ≤ u32Max) :
    parseU32Core cs = .ok (cs.foldl (fun a c => a * 10 + (c.toNat - 48)) 0) := by
  unfold parseU32Core
  have hplus : stripPlus cs = cs := by
    cases cs with
    | nil => rfl
    | cons c rest =>
      unfold stripPlus
      split
      · rename_i rest2 heq
        injection heq with h1 h2
        subst h1
        exact absurd (hd '+' (by simp)) (by decide)
      · rfl
  rw [hplus]
  dsimp only
  rw [if_neg hne, if_pos (List.all_eq_true.2 hd), if_pos hle]

/-- The `curr` token written by `load(x)` parses back to `x` whenever `x`
fits in `u32`. -/
theorem parse_fmt3 (x : Nat) (hx : x ≤ u32Max) : parseU32 (fmt3 x) = .ok x := by
  show parseU32Core (List.replicate (3 - (decRepr x).length) '0' ++ decRepr x) = .ok x
  rw [parseU32Core_digits _ ?hne ?hd (by rw [foldl_fmt3]; exact hx), foldl_fmt3]
  case hne =>
    intro h
    exact decRepr_ne_nil x (List.append_eq_nil.1 h).2
  case hd =>
    intro c hc
    rcases List.mem_append.1 hc with h | h
    · rcases List.eq_of_mem_replicate h with rfl; rfl
    · exact decRepr_digits x c h

/-! ## Structure of `splitNL` / `joinNL` / `rustLines`

These lemmas establish that on carriage-return-free content, re-joining
the lines read by `rustLines` reproduces the content up to one trailing
newline — the heart of the load/save round-trip property. -/

/-- `splitNL` never returns the empty list. -/
theorem splitNL_ne_nil (t : List Char) : splitNL t ≠ [] := by
  cases t with
  | nil => simp [splitNL]
  | cons c cs =>
    unfold splitNL
    split
    · simp
    · split <;> simp

/-- `joinNL` on a cons with non-empty tail interposes a newline. -/
theorem joinNL_cons (l : List Char) (ls : List (List Char)) (h : ls ≠ []) :
    joinNL (l :: ls) = l ++ '\n' :: joinNL ls := by
  cases ls with
  | nil => exact absurd rfl h
  | cons l2 ls2 => rfl

/-- Joining the pieces of `splitNL` reproduces the original content. -/
theorem joinNL_splitNL (t : List Char) : joinNL (splitNL t) = t := by
  induction t with
  | nil => rfl
  | cons c cs ih =>
    unfold splitNL
    split
    · rename_i hc
      rw [joinNL_cons _ _ (splitNL_ne_nil cs), ih, hc]
      rfl
    · split
      · rename_i hnil
        exact absurd hnil (splitNL_ne_nil cs)
      · rename_i l ls heq
        rw [heq] at ih
        cases ls with
        | nil =>
          show c :: l = c :: cs
          rw [show l = cs from ih]
        | cons l2 ls2 =>
          rw [joinNL_cons _ _ (by simp)]
          rw [joinNL_cons _ _ (by simp)] at ih
          rw [← ih]
          rfl

/-- Appending a final newline appends an empty piece. -/
theorem splitNL_concat_nl (u : List Char) :
    splitNL (u ++ ['\n']) = splitNL u ++ [[]] := by
  induction u with
  | nil => rfl
  | cons c cs ih =>
    show splitNL (c :: (cs ++ ['\n'])) = splitNL (c :: cs) ++ [[]]
    unfold splitNL
    by_cases hc : c = '\n'
    · rw [if_pos hc, if_pos hc, ih]
      rfl
    · rw [if_neg hc, if_neg hc, ih]
      obtain ⟨l, ls, heq⟩ : ∃ l ls, splitNL cs = l :: ls := by
        cases h : splitNL cs with
        | nil => exact absurd h (splitNL_ne_nil cs)
        | cons a b => exact ⟨a, b, rfl⟩
      rw [heq]
      rfl

/-- Characters of any piece of `splitNL t` are characters of `t`. -/
theorem mem_splitNL {c : Char} :
    ∀ {t l : List Char}, l ∈ splitNL t → c ∈ l → c ∈ t := by
  intro t
  induction t with
  | nil =>
    intro l hl hc
    rcases List.mem_singleton.1 hl with rfl
    cases hc
  | cons a cs ih =>
    intro l hl hc
    unfold splitNL at hl
    split at hl
    · rcases List.mem_cons.1 hl with rfl | hl
      · cases hc
      · exact List.mem_cons_of_mem a (ih hl hc)
    · rename_i ha
      revert hl
      split
      · rename_i hnil
        exact absurd hnil (splitNL_ne_nil cs)
      · rename_i l0 ls heq
        intro hl
        rcases List.mem_cons.1 hl with rfl | hl
        · rcases List.mem_cons.1 hc with rfl | hc2
          · exact List.mem_cons_self _ _
          · exact List.mem_cons_of_mem a (ih (by rw [heq]; exact List.mem_cons_self _ _) hc2)
        · exact List.mem_cons_of_mem a (ih (by rw [heq]; exact List.mem_cons_of_mem _ hl) hc)

/-- `getLast?` ignores a cons onto a non-empty list. -/
theorem getLast?_cons_of_ne_nil {α : Type} (a : α) {l : List α} (h : l ≠ []) :
    (a :: l).getLast? = l.getLast? := by
  cases l with
  | nil => exact absurd rfl h
  | cons b l2 => exact List.getLast?_cons_cons

/-- `stripCR` is the identity on carriage-return-free lines. -/
theorem stripCR_of_crFree {l : List Char} (h : ∀ c ∈ l, c ≠ '\r') :
    stripCR l = l := by
  unfold stripCR
  split
  · rename_i hl
    obtain ⟨hne, heq⟩ := List.mem_getLast?_eq_getLast (show '\r' ∈ l.getLast? from hl)
    have hmem : '\r' ∈ l := by rw [heq]; exact List.getLast_mem hne
    exact absurd rfl (h '\r' hmem)
  · rfl

/-- If the last piece of `splitNL t` is empty, `t` is empty or ends in a
newline. -/
theorem splitNL_last_empty :
    ∀ {t : List Char}, (splitNL t).getLast? = some [] →
      t = [] ∨ t.getLast? = some '\n' := by
  intro t
  induction t with
  | nil => intro _; exact Or.inl rfl
  | cons c cs ih =>
    intro h
    unfold splitNL at h
    split at h
    · rename_i hc
      rw [getLast?_cons_of_ne_nil _ (splitNL_ne_nil cs)] at h
      rcases ih h with rfl | htail
      · exact Or.inr (by rw [hc]; rfl)
      · refine Or.inr ?_
        rw [getLast?_cons_of_ne_nil]
        · exact htail
        · intro hnil
          rw [hnil] at htail
          cases htail
    · revert h
      split
      · rename_i hnil
        exact absurd hnil (splitNL_ne_nil cs)
      · rename_i l ls heq
        intro h
        cases ls with
        | nil =>
          simp at h
        | cons l2 ls2 =>
          rw [getLast?_cons_of_ne_nil _ (by simp)] at h
          have h2 : (splitNL cs).getLast? = some [] := by
            rw [heq, getLast?_cons_of_ne_nil _ (by simp)]
            exact h
          rcases ih h2 with rfl | htail
          · rw [show splitNL ([] : List Char) = [[]] from rfl] at heq
            cases heq
          · refine Or.inr ?_
            rw [getLast?_cons_of_ne_nil]
            · exact htail
            · intro hnil
              rw [hnil] at htail
              cases htail

/-- `stripCR` maps over carriage-return-free pieces as the identity. -/
theorem map_stripCR_of_crFree {P : List (List Char)}
    (h : ∀ l ∈ P, ∀ c ∈ l, c ≠ '\r') : P.map stripCR = P := by
  induction P with
  | nil => rfl
  | cons l ls ih =>
    rw [List.map_cons, stripCR_of_crFree (h l (List.mem_cons_self _ _)),
      ih (fun l2 hl2 => h l2 (List.mem_cons_of_mem _ hl2))]

/-- If `t` ends in a newline, the last piece of `splitNL t` is empty. -/
theorem splitNL_last_of_nl {t : List Char} (h : t.getLast? = some '\n') :
    (splitNL t).getLast? = some ([] : List Char) := by
  have hdec : t.dropLast ++ ['\n'] = t := List.dropLast_append_getLast? '\n' h
  rw [← hdec, splitNL_concat_nl, List.getLast?_concat]

/-- On carriage-return-free content, joining the lines read by `rustLines`
gives back the content minus one trailing newline. -/
theorem joinNL_rustLines_of_crFree {t : List Char} (hcr : ∀ c ∈ t, c ≠ '\r') :
    joinNL (rustLines t) = stripT t := by
  by_cases ht : t = []
  · subst ht; rfl
  unfold rustLines
  rw [if_neg ht]
  dsimp only
  by_cases hlast : (splitNL t).getLast? = some ([] : List Char)
  · rw [if_pos hlast]
    rcases splitNL_last_empty hlast with rfl | hnl
    · exact absurd rfl ht
    · have hdec : t.dropLast ++ ['\n'] = t := List.dropLast_append_getLast? '\n' hnl
      have hsplit : splitNL t = splitNL t.dropLast ++ [[]] := by
        conv_lhs => rw [← hdec]
        exact splitNL_concat_nl t.dropLast
      have hsub : ∀ c ∈ t.dropLast, c ∈ t := by
        intro c hc
        rw [← hdec]
        exact List.mem_append_left _ hc
      rw [hsplit, List.dropLast_concat,
        map_stripCR_of_crFree
          (fun l hl c hc => hcr c (hsub c (mem_splitNL hl hc))),
        joinNL_splitNL]
      unfold stripT
      rw [if_pos hnl]
  · rw [if_neg hlast]
    have hPne := splitNL_ne_nil t
    have hmap : ((splitNL t).dropLast).map stripCR = (splitNL t).dropLast := by
      refine map_stripCR_of_crFree fun l hl c hc => ?_
      have hl2 : l ∈ splitNL t := List.dropLast_subset _ hl
      exact hcr c (mem_splitNL hl2 hc)
    have hgd : (splitNL t).getLastD [] = (splitNL t).getLast hPne := by
      rw [List.getLastD_eq_getLast?, List.getLast?_eq_getLast_of_ne_nil hPne]
      rfl
    rw [hmap, hgd, List.dropLast_append_getLast hPne, joinNL_splitNL]
    unfold stripT
    have hnl : t.getLast? ≠ some '\n' := by
      intro h
      exact hlast (splitNL_last_of_nl h)
    rw [if_neg hnl]

/-! ## C6 — load/save round trip -/

/-- The widget's empty-vector normalization does not change the joined
text: the one pushed empty line joins to the empty string. -/
theorem joinNL_ensureLine (M : List (List Char)) :
    joinNL (ensureLine M) = joinNL M := by
  unfold ensureLine
  split
  · rename_i h
    rw [h]
    rfl
  · rfl

/-- The load/save round trip of one page's content: the bytes written back.
-/
def roundtrip (content : List Char) : List Char :=
  joinNL (rustLines content)

/-- **C6 counterexample**: for the CRLF content `"a\r\nb"` the round trip
writes `"a\nb"`: the difference is a carriage return in the middle of the
file, which no fixed trailing-newline normalization (identity, dropping a
final newline, or appending one) accounts for. -/
theorem c6_counterexample :
    roundtrip ['a', '\r', '\n', 'b'] = ['a', '\n', 'b'] ∧
    roundtrip ['a', '\r', '\n', 'b'] ≠ ['a', '\r', '\n', 'b'] ∧
    roundtrip ['a', '\r', '\n', 'b'] ≠ stripT ['a', '\r', '\n', 'b'] ∧
    roundtrip ['a', '\r', '\n', 'b'] ≠ ['a', '\r', '\n', 'b'] ++ ['\n'] := by
  refine ⟨rfl, by decide, by decide, by decide⟩

/-- **C6 amended**: for every page id `x` (fitting in `u32`) whose file
exists with carriage-return-free content, `load(x)` immediately followed by
`save()` with no intervening edits succeeds and writes back byte-identical
content up to the trailing-newline normalization `stripT` (one final
newline, if any, is dropped); CRLF line endings would additionally be
rewritten to LF, which is why the hypothesis excludes carriage returns. -/
theorem c6_load_save_roundtrip (co : Collab) (fs : FS) (d : Data) (x : Nat)
    (content : List Char) (hx : x ≤ u32Max)
    (hf : fs.files (fnameOf d.cwd x) = some content)
    (hcr : ∀ c ∈ content, c ≠ '\r') (hrx : co.rxOk d.srch = true) :
    loadStep co fs d x =
      .ok { d with curr := fmt3 x, text := textarea (rustLines content) } fs ∧
    saveStep fs { d with curr := fmt3 x, text := textarea (rustLines content) } =
      .ok { d with curr := fmt3 x, text := textarea (rustLines content) }
        (fs.write (fnameOf d.cwd x) (stripT content)) := by
  constructor
  · unfold loadStep
    dsimp only
    rw [hf]
    dsimp only
    rw [if_pos hrx]
  · unfold saveStep
    rw [show ({ d with curr := fmt3 x, text := textarea (rustLines content) } : Data).curr
          = fmt3 x from rfl,
      parse_fmt3 x hx]
    dsimp only
    rw [hf]
    dsimp only
    rw [show joinNL (textarea (rustLines content)).lines = stripT content from by
      rw [show (textarea (rustLines content)).lines = ensureLine (rustLines content) from rfl,
        joinNL_ensureLine]
      exact joinNL_rustLines_of_crFree hcr]

/-- **C6 witness**: the round trip at page 0 with content `"hi"`. -/
theorem c6_load_save_roundtrip_witness :
    loadStep coW fsOne dCmd 0 =
      .ok { dCmd with curr := fmt3 0, text := textarea (rustLines ['h', 'i']) } fsOne ∧
    saveStep fsOne { dCmd with curr := fmt3 0, text := textarea (rustLines ['h', 'i']) } =
      .ok { dCmd with curr := fmt3 0, text := textarea (rustLines ['h', 'i']) }
        (fsOne.write (fnameOf dCmd.cwd 0) (stripT ['h', 'i'])) :=
  c6_load_save_roundtrip coW fsOne dCmd 0 ['h', 'i'] (by decide) rfl (by decide) rfl

/-! ## C7 — what the reflow regex actually replaces -/

/-- Two run classes that agree on every character of the input produce the
same replacement. -/
theorem reflowAuxP_congr (p q : Char → Bool) :
    ∀ (t pend : List Char), (∀ c ∈ t, p c = q c) →
      reflowAuxP p pend t = reflowAuxP q pend t := by
  intro t
  induction t with
  | nil => intro pend _; rfl
  | cons c cs ih =>
    intro pend ht
    unfold reflowAuxP
    rw [ht c (List.mem_cons_self _ _)]
    by_cases h : q c = true
    · simp only [if_pos h]
      exact ih (c :: pend) fun x hx => ht x (List.mem_cons_of_mem _ hx)
    · simp only [if_neg h]
      rw [ih [] fun x hx => ht x (List.mem_cons_of_mem _ hx)]

/-- The source's class `[^\n\S]` agrees with the spec's "horizontal
whitespace" class on newlines and on every character that is not vertical
whitespace. -/
theorem longLines_eq_horiz {c : Char} (h : vertWS c = false ∨ c = '\n') :
    longLinesClass c = horizWS c := by
  rcases h with h | rfl
  · have hc : c ≠ '\n' := by
      intro hh
      subst hh
      cases h
    unfold longLinesClass horizWS
    rw [h]
    simp [hc]
  · rfl

/-- Characters of a joined buffer are newlines or characters of its lines. -/
theorem mem_joinNL {c : Char} :
    ∀ {L : List (List Char)}, c ∈ joinNL L → c = '\n' ∨ ∃ l ∈ L, c ∈ l := by
  intro L
  induction L with
  | nil => intro h; cases h
  | cons l ls ih =>
    intro h
    cases ls with
    | nil => exact Or.inr ⟨l, List.mem_singleton_self l, h⟩
    | cons l2 ls2 =>
      rw [joinNL_cons _ _ (by simp)] at h
      rcases List.mem_append.1 h with h | h
      · exact Or.inr ⟨l, List.mem_cons_self _ _, h⟩
      · rcases List.mem_cons.1 h with rfl | h
        · exact Or.inl rfl
        · rcases ih h with h | ⟨l3, hl3, hc3⟩
          · exact Or.inl h
          · exact Or.inr ⟨l3, List.mem_cons_of_mem _ hl3, hc3⟩

/-- **C7 counterexample**: the claim's rule replaces runs of *horizontal*
whitespace only, but the source class `[^\n\S]` also matches vertical
whitespace other than `'\n'`: on the single line `"a\r\r\rb"` the code
collapses the three carriage returns into a line break while the spec's
rule leaves the buffer unchanged. -/
theorem c7_counterexample :
    splitLongLines [['a', '\r', '\r', '\r', 'b']] = [['a'], ['b']] ∧
    reflowSpecLines [['a', '\r', '\r', '\r', 'b']] = [['a', '\r', '\r', '\r', 'b']] ∧
    splitLongLines [['a', '\r', '\r', '\r', 'b']] ≠
      reflowSpecLines [['a', '\r', '\r', '\r', 'b']] :=
  ⟨by decide, by decide, by decide⟩

/-- **C7 amended**: the transform replaces each maximal run of three or
more consecutive whitespace characters other than `'\n'` (including
vertical whitespace such as `'\r'`) by a single line break; on buffers free
of vertical whitespace this coincides with the spec's horizontal-whitespace
rule, and `"foo     bar"` (5 spaces) becomes the two lines `"foo"`,
`"bar"`. -/
theorem c7_reflow_runs (L : List (List Char))
    (hv : ∀ l ∈ L, ∀ c ∈ l, vertWS c = false) :
    splitLongLines L = reflowSpecLines L ∧
    splitLongLines [['f', 'o', 'o', ' ', ' ', ' ', ' ', ' ', 'b', 'a', 'r']] =
      [['f', 'o', 'o'], ['b', 'a', 'r']] := by
  refine ⟨?_, by decide⟩
  unfold splitLongLines reflowSpecLines reflowText
  congr 1
  refine reflowAuxP_congr _ _ _ _ fun c hc => ?_
  refine longLines_eq_horiz ?_
  rcases mem_joinNL hc with rfl | ⟨l, hl, hcl⟩
  · exact Or.inr rfl
  · exact Or.inl (hv l hl c hcl)

/-- **C7 witness**: on the spec's own scenario buffer (no vertical
whitespace) the code transform and the spec's rule agree and produce
`"foo"`, `"bar"`. -/
theorem c7_reflow_runs_witness :
    splitLongLines [['f', 'o', 'o', ' ', ' ', ' ', ' ', ' ', 'b', 'a', 'r']] =
      reflowSpecLines [['f', 'o', 'o', ' ', ' ', ' ', ' ', ' ', 'b', 'a', 'r']] ∧
    splitLongLines [['f', 'o', 'o', ' ', ' ', ' ', ' ', ' ', 'b', 'a', 'r']] =
      [['f', 'o', 'o'], ['b', 'a', 'r']] :=
  c7_reflow_runs [['f', 'o', 'o', ' ', ' ', ' ', ' ', ' ', 'b', 'a', 'r']] (by decide)

/-! ## Runs of class characters

`has3P p` detects three consecutive characters of class `p` — the
condition under which the reflow regex has a match.  The lemmas culminate
in: the output of the reflow scan never contains such a run, and the scan
is the identity on inputs without one. -/

/-- The first two characters exist and are of class `p`. -/
def run2 (p : Char → Bool) : List Char → Bool
  | a :: b :: _ => p a && p b
  | _ => false

/-- The list contains three consecutive characters of class `p`. -/
def has3P (p : Char → Bool) : List Char → Bool
  | [] => false
  | c :: cs => (p c && run2 p cs) || has3P p cs

/-- Unfolding equation of `has3P` on a cons. -/
theorem has3P_cons (p : Char → Bool) (c : Char) (cs : List Char) :
    has3P p (c :: cs) = ((p c && run2 p cs) || has3P p cs) := rfl

/-- Unfolding equation of `run2` on two leading elements. -/
theorem run2_cons2 (p : Char → Bool) (a b : Char) (l : List Char) :
    run2 p (a :: b :: l) = (p a && p b) := rfl

/-- Lists of length at most two contain no run of three. -/
theorem has3P_short {p : Char → Bool} :
    ∀ {l : List Char}, l.length ≤ 2 → has3P p l = false := by
  intro l h
  match l with
  | [] => rfl
  | [a] => simp [has3P, run2]
  | [a, b] => simp [has3P, run2]
  | a :: b :: c :: rest => simp at h

/-- A run in the tail is a run in the whole list. -/
theorem has3P_cons_of {p : Char → Bool} (c : Char) {cs : List Char}
    (h : has3P p cs = true) : has3P p (c :: cs) = true := by
  rw [has3P_cons, h]
  simp

/-- A two-run survives appending on the right. -/
theorem run2_append {p : Char → Bool} {u : List Char} (v : List Char)
    (h : run2 p u = true) : run2 p (u ++ v) = true := by
  match u with
  | [] => cases h
  | [a] => cases h
  | a :: b :: rest => exact h

/-- A leading character out of class kills the two-run. -/
theorem run2_cons_false {p : Char → Bool} {c : Char} (hc : p c = false)
    (v : List Char) : run2 p (c :: v) = false := by
  match v with
  | [] => rfl
  | b :: rest =>
    show (p c && p b) = false
    rw [hc]
    rfl

/-- A run of three survives appending on the right. -/
theorem has3P_append_left {p : Char → Bool} (v : List Char) :
    ∀ {u : List Char}, has3P p u = true → has3P p (u ++ v) = true := by
  intro u
  induction u with
  | nil => intro h; cases h
  | cons a u' ih =>
    intro h
    rw [has3P_cons] at h
    rw [List.cons_append, has3P_cons]
    rcases Bool.or_eq_true_iff.1 h with h | h
    · rw [Bool.and_eq_true] at h
      rw [h.1, run2_append v h.2]
      rfl
    · rw [ih h]
      simp

/-- A run of three survives prepending on the left. -/
theorem has3P_append_right {p : Char → Bool} (u : List Char) {v : List Char}
    (h : has3P p v = true) : has3P p (u ++ v) = true := by
  induction u with
  | nil => exact h
  | cons a u' ih => exact has3P_cons_of a ih

/-- No run in an append means no run in the left part. -/
theorem has3P_of_append_left {p : Char → Bool} {u v : List Char}
    (h : has3P p (u ++ v) = false) : has3P p u = false := by
  cases hu : has3P p u with
  | false => rfl
  | true => rw [has3P_append_left v hu] at h; cases h

/-- No run in an append means no run in the right part. -/
theorem has3P_of_append_right {p : Char → Bool} {u v : List Char}
    (h : has3P p (u ++ v) = false) : has3P p v = false := by
  cases hv : has3P p v with
  | false => rfl
  | true => rw [has3P_append_right u hv] at h; cases h

/-- Dropping a final newline cannot create a run. -/
theorem has3P_stripT {p : Char → Bool} {t : List Char}
    (h : has3P p t = false) : has3P p (stripT t) = false := by
  unfold stripT
  split
  · rename_i hl
    have hne : t ≠ [] := by
      intro hh
      subst hh
      cases hl
    refine has3P_of_append_left (v := [t.getLast hne]) ?_
    rw [List.dropLast_append_getLast hne]
    exact h
  · exact h

/-- An all-class list of length at least three is a run. -/
theorem has3P_of_all {p : Char → Bool} :
    ∀ {u : List Char}, (∀ c ∈ u, p c = true) → 3 ≤ u.length →
      has3P p u = true := by
  intro u hall hlen
  match u with
  | [] => simp at hlen
  | [a] => simp at hlen
  | [a, b] => simp at hlen
  | a :: b :: c :: rest =>
    rw [has3P_cons, run2_cons2, hall a (by simp), hall b (by simp), hall c (by simp)]
    rfl

/-- A class-`false` separator keeps the two sides' runs apart. -/
theorem has3P_sep {p : Char → Bool} {c : Char} (hc : p c = false) :
    ∀ {u : List Char} {v : List Char}, has3P p u = false →
      has3P p v = false → has3P p (u ++ c :: v) = false := by
  intro u
  induction u with
  | nil =>
    intro v _ hv
    show ((p c && run2 p v) || has3P p v) = false
    rw [hc, hv]
    rfl
  | cons a u' ih =>
    intro v hu hv
    have hu2 := Bool.or_eq_false_iff.1 hu
    show ((p a && run2 p (u' ++ c :: v)) || has3P p (u' ++ c :: v)) = false
    rw [ih hu2.2 hv]
    match u' with
    | [] =>
      simp only [List.nil_append]
      rw [run2_cons_false hc v]
      simp
    | [b] =>
      simp only [List.cons_append, List.nil_append]
      rw [run2_cons2, hc]
      simp
    | b :: b2 :: u'' =>
      simp only [List.cons_append]
      rw [run2_cons2]
      rw [run2_cons2] at hu2
      rw [hu2.1]
      rfl

/-- The reflow scan is the identity on inputs with no run of three. -/
theorem reflowAuxP_fixed {p : Char → Bool} :
    ∀ (t pend : List Char), (∀ c ∈ pend, p c = true) →
      has3P p (pend.reverse ++ t) = false →
      reflowAuxP p pend t = pend.reverse ++ t := by
  intro t
  induction t with
  | nil =>
    intro pend hall h3
    unfold reflowAuxP
    rw [List.append_nil] at h3
    have hlen : ¬ 3 ≤ pend.length := by
      intro hge
      rw [has3P_of_all (fun c hc => hall c (List.mem_reverse.1 hc))
        (by simpa using hge)] at h3
      cases h3
    rw [if_neg hlen, List.append_nil]
  | cons c cs ih =>
    intro pend hall h3
    unfold reflowAuxP
    by_cases hc : p c = true
    · rw [if_pos hc]
      have h3' : has3P p ((c :: pend).reverse ++ cs) = false := by
        rw [List.reverse_cons, List.append_assoc]
        exact h3
      rw [ih (c :: pend)
        (fun x hx => by
          rcases List.mem_cons.1 hx with rfl | hx
          · exact hc
          · exact hall x hx) h3']
      rw [List.reverse_cons, List.append_assoc]
      rfl
    · rw [if_neg hc]
      have hcf : p c = false := by
        cases h : p c with
        | false => rfl
        | true => exact absurd h hc
      have hlen : ¬ 3 ≤ pend.length := by
        intro hge
        rw [has3P_append_left _
          (has3P_of_all (fun x hx => hall x (List.mem_reverse.1 hx))
            (by simpa using hge))] at h3
        cases h3
      rw [if_neg hlen]
      have h3cs : has3P p cs = false := by
        have h1 := has3P_of_append_right h3
        have h2 := Bool.or_eq_false_iff.1 h1
        exact h2.2
      rw [ih [] (fun x hx => absurd hx (List.not_mem_nil x)) (by simpa using h3cs)]
      rfl

/-- The output of the reflow scan never contains a run of three: every
emitted run has length at most two and is followed by an out-of-class
character, and every emitted `'\n'` stands alone between such borders. -/
theorem reflowAuxP_out_no3 {p : Char → Bool} :
    ∀ (t pend : List Char), has3P p (reflowAuxP p pend t) = false := by
  intro t
  induction t with
  | nil =>
    intro pend
    unfold reflowAuxP
    split
    · exact has3P_short (by simp)
    · rename_i h
      exact has3P_short (by simp; omega)
  | cons c cs ih =>
    intro pend
    unfold reflowAuxP
    by_cases hc : p c = true
    · rw [if_pos hc]
      exact ih (c :: pend)
    · rw [if_neg hc]
      have hcf : p c = false := by
        cases h : p c with
        | false => rfl
        | true => exact absurd h hc
      refine has3P_sep hcf ?_ (ih [])
      split
      · exact has3P_short (by simp)
      · rename_i h
        exact has3P_short (by simp; omega)

/-- Every character the reflow scan emits is a newline or came from the
pending run or the input. -/
theorem mem_reflowAuxP {p : Char → Bool} {c : Char} :
    ∀ {t pend : List Char}, c ∈ reflowAuxP p pend t →
      c = '\n' ∨ c ∈ pend ∨ c ∈ t := by
  intro t
  induction t with
  | nil =>
    intro pend h
    unfold reflowAuxP at h
    split at h
    · rcases List.mem_singleton.1 h with rfl
      exact Or.inl rfl
    · exact Or.inr (Or.inl (List.mem_reverse.1 h))
  | cons a cs ih =>
    intro pend h
    unfold reflowAuxP at h
    split at h
    · rcases ih h with h | h | h
      · exact Or.inl h
      · rcases List.mem_cons.1 h with rfl | h
        · exact Or.inr (Or.inr (List.mem_cons_self _ _))
        · exact Or.inr (Or.inl h)
      · exact Or.inr (Or.inr (List.mem_cons_of_mem _ h))
    · rcases List.mem_append.1 h with h | h
      · revert h
        split
        · intro h
          rcases List.mem_singleton.1 h with rfl
          exact Or.inl rfl
        · intro h
          exact Or.inr (Or.inl (List.mem_reverse.1 h))
      · rcases List.mem_cons.1 h with rfl | h
        · exact Or.inr (Or.inr (List.mem_cons_self _ _))
        · rcases ih h with h | h | h
          · exact Or.inl h
          · cases h
          · exact Or.inr (Or.inr (List.mem_cons_of_mem _ h))

/-! ## C8 — idempotence of the reflow transform -/

/-- On carriage-return-free content that does not produce an empty last
line, dropping the final newline does not change the lines read. -/
theorem rustLines_stripT {t : List Char} (hcr : ∀ c ∈ t, c ≠ '\r')
    (hlast : (rustLines t).getLast? ≠ some ([] : List Char)) :
    rustLines (stripT t) = rustLines t := by
  unfold stripT
  split
  · rename_i hnl
    have hne : t ≠ [] := by
      intro hh
      subst hh
      cases hnl
    have hdec : t.dropLast ++ ['\n'] = t := List.dropLast_append_getLast? '\n' hnl
    have hsplit : splitNL t = splitNL t.dropLast ++ [[]] := by
      conv_lhs => rw [← hdec]
      exact splitNL_concat_nl t.dropLast
    have hsub : ∀ c ∈ t.dropLast, c ≠ '\r' := fun c hc =>
      hcr c (by rw [← hdec]; exact List.mem_append_left _ hc)
    have hmapdrop : (splitNL t.dropLast).map stripCR = splitNL t.dropLast :=
      map_stripCR_of_crFree fun l hl c hc => hsub c (mem_splitNL hl hc)
    have hrt : rustLines t = splitNL t.dropLast := by
      unfold rustLines
      rw [if_neg hne]
      dsimp only
      rw [hsplit, List.getLast?_concat, if_pos rfl, List.dropLast_concat, hmapdrop]
    rw [hrt] at hlast ⊢
    by_cases hdn : t.dropLast = []
    · rw [hdn] at hlast
      exact absurd rfl hlast
    · unfold rustLines
      rw [if_neg hdn]
      dsimp only
      rw [if_neg hlast]
      have hPne := splitNL_ne_nil t.dropLast
      have hmapdrop2 :
          ((splitNL t.dropLast).dropLast).map stripCR = (splitNL t.dropLast).dropLast :=
        map_stripCR_of_crFree fun l hl c hc =>
          hsub c (mem_splitNL (List.dropLast_subset _ hl) hc)
      have hgd : (splitNL t.dropLast).getLastD [] = (splitNL t.dropLast).getLast hPne := by
        rw [List.getLastD_eq_getLast?, List.getLast?_eq_getLast_of_ne_nil hPne]
        rfl
      rw [hmapdrop2, hgd, List.dropLast_append_getLast hPne]
  · rfl

/-- `AppState::split_long_lines` as a transform on the buffer's lines: the
replaced text is re-split and stored through the `textarea` helper, whose
`TextArea::new` keeps at least one (empty) line in the buffer. -/
def applyReflow (L : List (List Char)) : List (List Char) :=
  (textarea (splitLongLines L)).lines

/-- **C8 counterexample**: the reflow transform on the buffer is not
idempotent.  A trailing empty line after a non-empty one is lost on each
pass (`join` then `str::lines` drops one trailing newline), and a line
ending in two carriage returns loses one `\r` per pass (`str::lines`
strips a `\r` before the rejoining `\n`). -/
theorem c8_counterexample :
    applyReflow (applyReflow [['a'], [], []]) ≠ applyReflow [['a'], [], []] ∧
    applyReflow (applyReflow [['a', '\r', '\r'], ['b']]) ≠
      applyReflow [['a', '\r', '\r'], ['b']] :=
  ⟨by decide, by decide⟩

/-- The re-split text is idempotent under the reflow transform on every
carriage-return-free input whose result does not end with an empty line —
the text-level core of the idempotence property. -/
theorem splitLongLines_idem (L : List (List Char))
    (hcr : ∀ l ∈ L, ∀ c ∈ l, c ≠ '\r')
    (hlast : (splitLongLines L).getLast? ≠ some ([] : List Char)) :
    splitLongLines (splitLongLines L) = splitLongLines L := by
  have hcrt : ∀ c ∈ joinNL L, c ≠ '\r' := by
    intro c hc
    rcases mem_joinNL hc with rfl | ⟨l, hl, hcl⟩
    · decide
    · exact hcr l hl c hcl
  have hcrt1 : ∀ c ∈ reflowText (joinNL L), c ≠ '\r' := by
    intro c hc
    rcases mem_reflowAuxP hc with rfl | hc | hc
    · decide
    · cases hc
    · exact hcrt c hc
  have h3 : has3P longLinesClass (reflowText (joinNL L)) = false :=
    reflowAuxP_out_no3 (joinNL L) []
  show rustLines (reflowText (joinNL (rustLines (reflowText (joinNL L))))) =
    rustLines (reflowText (joinNL L))
  rw [show joinNL (rustLines (reflowText (joinNL L))) = stripT (reflowText (joinNL L)) from
    joinNL_rustLines_of_crFree hcrt1]
  rw [show reflowText (stripT (reflowText (joinNL L))) = stripT (reflowText (joinNL L)) by
    unfold reflowText
    have hfix := reflowAuxP_fixed (p := longLinesClass) (stripT (reflowText (joinNL L))) []
      (fun x hx => absurd hx (List.not_mem_nil x)) (by simpa using has3P_stripT h3)
    simpa using hfix]
  exact rustLines_stripT hcrt1 hlast

/-- **C8 amended**: the reflow transform on the buffer is idempotent on
every buffer whose lines contain no carriage returns and whose reflowed
result does not end with an empty line. -/
theorem c8_reflow_idempotent (L : List (List Char))
    (hcr : ∀ l ∈ L, ∀ c ∈ l, c ≠ '\r')
    (hlast : (applyReflow L).getLast? ≠ some ([] : List Char)) :
    applyReflow (applyReflow L) = applyReflow L := by
  have hne : splitLongLines L ≠ [] := by
    intro h
    apply hlast
    show (ensureLine (splitLongLines L)).getLast? = some []
    rw [h]
    rfl
  have h1 : applyReflow L = splitLongLines L := by
    show ensureLine (splitLongLines L) = splitLongLines L
    unfold ensureLine
    rw [if_neg hne]
  have hlast2 : (splitLongLines L).getLast? ≠ some ([] : List Char) := by
    rw [← h1]
    exact hlast
  have hcore := splitLongLines_idem L hcr hlast2
  rw [h1]
  show ensureLine (splitLongLines (splitLongLines L)) = splitLongLines L
  rw [hcore]
  unfold ensureLine
  rw [if_neg hne]

/-- **C8 witness**: reflowing the buffer `["a", "b"]` twice equals
reflowing it once. -/
theorem c8_reflow_idempotent_witness :
    applyReflow (applyReflow [['a'], ['b']]) = applyReflow [['a'], ['b']] :=
  c8_reflow_idempotent [['a'], ['b']] (by decide) (by decide)

end Couic
